import Mathlib

/-!
Verification of the GenzAI chat client core: the streaming session
controller (`handleSend` in the App component), the conversation store it
mutates, the new-conversation action (`startNewChat`), and the request
builder (`sendMessageToGeminiStream` in `geminiService.ts`).

The embedding is shallow: React state updates become explicit state
passing on an `AppState` record; the asynchronous stream is an explicit
`StreamOutcome` parameter (open failure, or a list of received chunks
followed by an optional mid-stream error); `Math.random`-based message ids
are an oracle, supplied per call, since the source performs no freshness
check on them; JavaScript `String.prototype.trim` becomes `jsTrim`.
-/

namespace GenzAI

/-- Attachment payload as in `types.ts`: base64 data plus a MIME type. -/
structure Attachment where
  data : String
  mimeType : String
deriving DecidableEq, Repr

/-- Message role as in `types.ts`: the union type user or model. -/
inductive Role where
  | user
  | model
deriving DecidableEq, Repr

/-- Message record as in `types.ts`; `Date` timestamps become `Nat`. -/
structure Message where
  id : String
  role : Role
  text : String
  timestamp : Nat
  attachment : Option Attachment
deriving DecidableEq, Repr

/-- JavaScript whitespace characters recognized by `String.prototype.trim`
(the ASCII subset; the claims never depend on the exact set). -/
def isJsWs (c : Char) : Bool :=
  c = ' ' || c = '\t' || c = '\n' || c = '\r' || c = '\x0b' || c = '\x0c'

/-- List-level trim: drop whitespace from both ends. -/
def jsTrimList (l : List Char) : List Char :=
  ((l.dropWhile isJsWs).reverse.dropWhile isJsWs).reverse

/-- JavaScript `input.trim()` as used by `handleSend`. -/
def jsTrim (s : String) : String :=
  ⟨jsTrimList s.data⟩

/-- One content part of a turn sent to the remote model: either inline
image data or text (the loose `\x7b text?, inlineData? \x7d` objects of the
source, read as the tagged union they are used as). -/
inductive Part where
  | inlineData (a : Attachment)
  | text (s : String)
deriving DecidableEq, Repr

/-- Whether a part is the inline-image kind. -/
def Part.isImage : Part → Bool
  | .inlineData _ => true
  | .text _ => false

/-- One history entry of the request: a role plus its content parts. -/
structure HistoryEntry where
  role : Role
  parts : List Part
deriving DecidableEq, Repr

/-- Parts built for one historical message (`MessageList.tsx` lines
249-261): start empty, push an inlineData part when the message has an
attachment, then push a text part when the text is non-empty (the
JavaScript truthiness test on `m.text`). -/
def messageParts (m : Message) : List Part :=
  let ps : List Part := []
  let ps := match m.attachment with
    | some a => ps ++ [Part.inlineData a]
    | none => ps
  let ps := if m.text = "" then ps else ps ++ [Part.text m.text]
  ps

/-- One history entry for a historical message: its role plus its parts. -/
def historyEntryOf (m : Message) : HistoryEntry :=
  { role := m.role, parts := messageParts m }

/-- Request context built by `handleSend` from the messages state captured
before this send (the React closure value, which excludes the user message
and the placeholder appended during this send). -/
def buildHistory (msgs : List Message) : List HistoryEntry :=
  msgs.map historyEntryOf

/-- New-turn content handed to `chat.sendMessageStream`
(`geminiService.ts` lines 30-44): a bare prompt string when no attachment
is present, otherwise a two-part list with the inline image first and the
text second. -/
inductive MessageContent where
  | plain (prompt : String)
  | parts (ps : List Part)
deriving DecidableEq, Repr

/-- Content construction of `sendMessageToGeminiStream`: with an
attachment the payload is `[inlineData, text prompt]`, image first. -/
def buildMessageContent (prompt : String) (attachment : Option Attachment) :
    MessageContent :=
  match attachment with
  | some a => MessageContent.parts [Part.inlineData a, Part.text prompt]
  | none => MessageContent.plain prompt

/-- The fixed system instruction of `geminiService.ts`. -/
def systemInstructionText : String :=
  "You are GenzAI, a helpful, witty, and professional AI assistant. You can analyze images if provided. Format your responses with clear paragraphs and Markdown."

/-- The outgoing request assembled by `sendMessageToGeminiStream`: model
name, fixed system instruction, prior-turn history, and new-turn content. -/
structure GeminiRequest where
  model : String
  systemInstruction : String
  history : List HistoryEntry
  content : MessageContent
deriving DecidableEq, Repr

/-- Request construction of `sendMessageToGeminiStream`
(`geminiService.ts` lines 10-50), with the network effect abstracted
away: the function determines the request; the stream outcome is a
parameter of `handleSend`. -/
def sendMessageToGeminiStream (prompt : String) (history : List HistoryEntry)
    (modelName : String) (attachment : Option Attachment) : GeminiRequest :=
  { model := modelName
    systemInstruction := systemInstructionText
    history := history
    content := buildMessageContent prompt attachment }

/-- Outcome of the remote stream, abstracting the asynchronous iteration
in `handleSend`: either opening the stream throws, or a list of chunks is
received (each chunk text is optional, as `chunk.text` may be absent) and
the stream then either ends normally or raises an error. -/
inductive StreamOutcome where
  | openFailure
  | streamed (chunks : List (Option String)) (errorAtEnd : Bool)
deriving DecidableEq, Repr

/-- One delta application (`MessageList.tsx` lines 287-291): map over the
store, appending the chunk text to every message whose id equals the
placeholder id, leaving all other messages untouched. -/
def applyDelta (botMsgId : String) (chunkText : String) (msgs : List Message) :
    List Message :=
  msgs.map fun msg =>
    if msg.id = botMsgId then { msg with text := msg.text ++ chunkText } else msg

/-- One loop iteration of the stream consumer (`MessageList.tsx` lines
284-293): a chunk whose text is absent or empty (JavaScript falsy) is
skipped; otherwise its text is appended via `applyDelta`. -/
def applyChunk (botMsgId : String) (chunk : Option String) (msgs : List Message) :
    List Message :=
  match chunk with
  | none => msgs
  | some t => if t = "" then msgs else applyDelta botMsgId t msgs

/-- The whole stream-consumption loop: fold `applyChunk` over the chunks
in arrival order. -/
def foldChunks (botMsgId : String) : List (Option String) → List Message → List Message
  | [], msgs => msgs
  | c :: rest, msgs => foldChunks botMsgId rest (applyChunk botMsgId c msgs)

/-- The user message appended by `handleSend`: trimmed input text and the
staged attachment. -/
def userMessage (uid : String) (text : String) (ts : Nat)
    (att : Option Attachment) : Message :=
  { id := uid, role := Role.user, text := text, timestamp := ts, attachment := att }

/-- The assistant placeholder appended by `handleSend` before streaming:
model role, empty text, no attachment. -/
def placeholderMessage (bid : String) (ts : Nat) : Message :=
  { id := bid, role := Role.model, text := "", timestamp := ts, attachment := none }

/-- The fixed failure notice shown when the stream fails. -/
def errorNoticeText : String :=
  "I\x27m having trouble connecting right now. Please try again."

/-- The error message appended by the catch branch of `handleSend`. -/
def errorMessage (eid : String) (ts : Nat) : Message :=
  { id := eid, role := Role.model, text := errorNoticeText, timestamp := ts
    attachment := none }

/-- Component state of the App component relevant to the claims: the
conversation store, the input buffer, the busy flag, the staged
attachment, and the selected model name. -/
structure AppState where
  messages : List Message
  input : String
  isLoading : Bool
  attachment : Option Attachment
  selectedModel : String
deriving DecidableEq, Repr

/-- The entry guard of `handleSend` (`MessageList.tsx` line 226): return
immediately when the trimmed input is empty and no attachment is staged,
or when a send is already in flight. -/
def sendGuard (s : AppState) : Prop :=
  (jsTrim s.input = "" ∧ s.attachment = none) ∨ s.isLoading = true

instance (s : AppState) : Decidable (sendGuard s) := by
  unfold sendGuard; infer_instance

/-- The `handleSend` function (`MessageList.tsx` lines 224-307) as a state
transformer. Oracle inputs: the three generated ids, the three creation
timestamps, and the stream outcome. Returns the final state together with
the request passed to the service (`none` when the guard rejected the
call). On the success path the chunks are folded into the store; on either
failure path the error message is appended and, in all non-guarded paths,
the finally block clears the busy flag (input and attachment were already
cleared at the start of the send). -/
def handleSend (s : AppState) (uid bid eid : String) (t1 t2 t3 : Nat)
    (outcome : StreamOutcome) : AppState × Option GeminiRequest :=
  if sendGuard s then (s, none)
  else
    let userText := jsTrim s.input
    let currentAttachment := s.attachment
    let userMsg := userMessage uid userText t1 currentAttachment
    let history := buildHistory s.messages
    let botMsg := placeholderMessage bid t2
    let afterBot := s.messages ++ [userMsg, botMsg]
    let req := sendMessageToGeminiStream userText history s.selectedModel currentAttachment
    match outcome with
    | StreamOutcome.openFailure =>
        ({ s with messages := afterBot ++ [errorMessage eid t3]
                  input := "", attachment := none, isLoading := false }, some req)
    | StreamOutcome.streamed chunks errAtEnd =>
        let streamed := foldChunks bid chunks afterBot
        if errAtEnd then
          ({ s with messages := streamed ++ [errorMessage eid t3]
                    input := "", attachment := none, isLoading := false }, some req)
        else
          ({ s with messages := streamed
                    input := "", attachment := none, isLoading := false }, some req)

/-- The `startNewChat` action (`MessageList.tsx` lines 316-320): empty the
store, clear the input, drop the staged attachment. It does not write the
busy flag or the selected model. -/
def startNewChat (s : AppState) : AppState :=
  { s with messages := [], input := "", attachment := none }

/-- One delta application lifted to the whole component state: the
`setMessages` call inside the stream loop touches only the messages. -/
def applyChunkState (botMsgId : String) (chunk : Option String) (s : AppState) :
    AppState :=
  { s with messages := applyChunk botMsgId chunk s.messages }

/-- User-interface events that drive the App component state: editing the
input buffer (typing, suggestion clicks, voice transcripts), staging or
removing an attachment, selecting a model, sending, and starting a new
conversation. A send event carries the oracle inputs of `handleSend`. -/
inductive Event where
  | setInput (text : String)
  | attach (a : Attachment)
  | removeAttachment
  | selectModel (name : String)
  | send (uid bid eid : String) (t1 t2 t3 : Nat) (outcome : StreamOutcome)
  | newChat
deriving DecidableEq, Repr

/-- One step of the App component under an event. -/
def step (s : AppState) (e : Event) : AppState :=
  match e with
  | Event.setInput t => { s with input := t }
  | Event.attach a => { s with attachment := some a }
  | Event.removeAttachment => { s with attachment := none }
  | Event.selectModel n => { s with selectedModel := n }
  | Event.send uid bid eid t1 t2 t3 o => (handleSend s uid bid eid t1 t2 t3 o).1
  | Event.newChat => startNewChat s

/-- Initial component state: empty store, empty input, not busy, no
attachment, the default model selected. -/
def initState : AppState :=
  { messages := [], input := "", isLoading := false, attachment := none
    selectedModel := "gemini-3-pro-preview" }

/-- Run a sequence of events from the initial state. -/
def run (evs : List Event) : AppState :=
  evs.foldl step initState

/-- Ids drawn from the id oracle by one event: a send consumes up to three
(user message, placeholder, error message); other events consume none. -/
def eventIds : Event → List String
  | Event.send uid bid eid _ _ _ _ => [uid, bid, eid]
  | _ => []

/-- All ids supplied across a trace, in order. -/
def suppliedIds : List Event → List String
  | [] => []
  | e :: rest => eventIds e ++ suppliedIds rest

/-- The ids currently stored in a message list. -/
def idsOf (msgs : List Message) : List String :=
  msgs.map Message.id

/-- Concatenation of a list of text fragments in arrival order. -/
def concatAll : List String → String
  | [] => ""
  | s :: rest => s ++ concatAll rest

/-- Whether a character list is free of JavaScript whitespace at both
ends (no leading and no trailing whitespace character). -/
def noWsEnds (l : List Char) : Bool :=
  (match l.head? with
   | some c => !isJsWs c
   | none => true) &&
  (match l.getLast? with
   | some c => !isJsWs c
   | none => true)

/-- Invariant on one stored message, from claim C9: a user message is
trimmed (no leading or trailing whitespace, as produced by trimming the
send-time input) and is non-empty or carries an attachment. -/
def userOk (m : Message) : Prop :=
  m.role = Role.user →
    noWsEnds m.text.data = true ∧ (m.text ≠ "" ∨ m.attachment.isSome = true)

instance (m : Message) : Decidable (userOk m) := by
  unfold userOk; infer_instance

/-- Ordering predicate on a content-parts list: every inline-image part
sits strictly before every text part. -/
def imageBeforeText (ps : List Part) : Prop :=
  ∀ i j : Fin ps.length,
    (ps.get i).isImage = true → (ps.get j).isImage = false → i.val < j.val

/-- Companion definition for the C7 refinement, written from the spec
sentence rather than from the source: per historical message, when an
attachment exists prepend an inline-data part, then, when the text is
non-empty, append a text part. -/
def specParts (m : Message) : List Part :=
  (match m.attachment with
   | some a => [Part.inlineData a]
   | none => []) ++
  (if m.text = "" then [] else [Part.text m.text])

/-- Companion definition for the C7 refinement, from the spec sentence:
the request context is the full prior conversation, each message mapped to
its role plus the content-parts representation of `specParts`. -/
def specHistory (msgs : List Message) : List HistoryEntry :=
  msgs.map fun m => { role := m.role, parts := specParts m }

/-- The conversation store at the moment of failure of one send: the prior
store, the appended user message and placeholder, with the chunks received
before the failure already folded in (`[]` for a stream-open failure). -/
def storeAtFailure (s : AppState) (uid bid : String) (t1 t2 : Nat)
    (chunks : List (Option String)) : List Message :=
  foldChunks bid chunks
    (s.messages ++ [userMessage uid (jsTrim s.input) t1 s.attachment,
      placeholderMessage bid t2])

/-- Example idle state with pending input, used by concrete witnesses. -/
def stWithInput : AppState :=
  { messages := [], input := "hi", isLoading := false, attachment := none
    selectedModel := "m" }

/-- Example busy state, used by concrete witnesses. -/
def stBusy : AppState :=
  { messages := [], input := "draft", isLoading := true, attachment := none
    selectedModel := "m" }

/-- Example attachment value, used by concrete witnesses. -/
def attPng : Attachment :=
  { data := "QUJD", mimeType := "image/png" }

/-- Example idle state with a staged attachment and whitespace-only input,
used by concrete witnesses. -/
def stWithImage : AppState :=
  { messages := [], input := " ", isLoading := false, attachment := some attPng
    selectedModel := "m" }

/-- Trace in which the id oracle repeats one id inside a single send (as
`Math.random` may: the source never checks freshness), so the user message
and the placeholder receive the same id. -/
def collidingTrace : List Event :=
  [Event.setInput "hi",
   Event.send "a" "a" "e" 0 0 0 (StreamOutcome.streamed [] false)]

/-- Trace with a repeated id and a whitespace-only chunk: the delta also
hits the user message sharing the placeholder id, leaving it with trailing
whitespace. -/
def collidingWsTrace : List Event :=
  [Event.setInput "hi",
   Event.send "a" "a" "e" 0 0 0 (StreamOutcome.streamed [some " "] false)]

/-- Trace whose supplied ids are pairwise distinct, exercising a streamed
send, a new-conversation action and a failing send. -/
def freshTrace : List Event :=
  [Event.setInput " hi ",
   Event.send "u" "b" "e" 0 0 0 (StreamOutcome.streamed [some "He", some "llo"] false),
   Event.newChat,
   Event.setInput "again",
   Event.send "u2" "b2" "e2" 4 5 6 StreamOutcome.openFailure]

/-! Helper lemmas about strings and trimming. -/

theorem str_append_empty (s : String) : s ++ "" = s := by
  apply String.ext; simp [String.data_append]

theorem str_empty_append (s : String) : "" ++ s = s := by
  apply String.ext; simp [String.data_append]

theorem str_append_assoc (a b c : String) : a ++ b ++ c = a ++ (b ++ c) := by
  apply String.ext; simp [String.data_append]

theorem head_dropWhile_ws (l : List Char) (c : Char)
    (h : (l.dropWhile isJsWs).head? = some c) : isJsWs c = false := by
  induction l with
  | nil => simp at h
  | cons a t ih =>
      rw [List.dropWhile_cons] at h
      cases hb : isJsWs a with
      | true => rw [hb] at h; simp at h; exact ih h
      | false =>
          rw [hb] at h
          simp at h
          rw [← h]
          exact hb

theorem getLast_dropWhile_ws (l : List Char) (h : l.dropWhile isJsWs ≠ []) :
    (l.dropWhile isJsWs).getLast? = l.getLast? := by
  induction l with
  | nil => simp at h
  | cons a t ih =>
      rw [List.dropWhile_cons] at h ⊢
      cases hb : isJsWs a with
      | true =>
          rw [hb] at h
          rw [if_pos rfl] at h
          rw [if_pos rfl]
          have ht : t ≠ [] := by
            intro he
            rw [he] at h
            simp at h
          rw [ih h]
          cases t with
          | nil => exact absurd rfl ht
          | cons x xs => rw [List.getLast?_cons_cons]
      | false => rw [if_neg Bool.false_ne_true]

theorem noWsEnds_jsTrimList (l : List Char) : noWsEnds (jsTrimList l) = true := by
  unfold jsTrimList
  by_cases hnil : (l.dropWhile isJsWs).reverse.dropWhile isJsWs = []
  · rw [hnil]; rfl
  · have hx : l.dropWhile isJsWs ≠ [] := by
      intro he
      rw [he] at hnil
      simp at hnil
    cases hhead : (l.dropWhile isJsWs).head? with
    | none => exact absurd (List.head?_eq_none_iff.mp hhead) hx
    | some c =>
        cases hlast : ((l.dropWhile isJsWs).reverse.dropWhile isJsWs).head? with
        | none => exact absurd (List.head?_eq_none_iff.mp hlast) hnil
        | some d =>
            have h1 : ((l.dropWhile isJsWs).reverse.dropWhile isJsWs).getLast?
                = (l.dropWhile isJsWs).reverse.getLast? :=
              getLast_dropWhile_ws (l.dropWhile isJsWs).reverse hnil
            have hc : isJsWs c = false := head_dropWhile_ws l c hhead
            have hd : isJsWs d = false :=
              head_dropWhile_ws (l.dropWhile isJsWs).reverse d hlast
            simp [noWsEnds, List.head?_reverse, List.getLast?_reverse, h1,
              hhead, hlast, hc, hd]

/-! Helper lemmas about delta application and the stream fold. -/

theorem applyDelta_append (bid t : String) (x y : List Message) :
    applyDelta bid t (x ++ y) = applyDelta bid t x ++ applyDelta bid t y := by
  unfold applyDelta
  exact List.map_append _ x y

theorem applyChunk_append (bid : String) (c : Option String) (x y : List Message) :
    applyChunk bid c (x ++ y) = applyChunk bid c x ++ applyChunk bid c y := by
  cases c with
  | none => rfl
  | some t =>
      unfold applyChunk
      by_cases h : t = "" <;> simp [h, applyDelta_append]

theorem foldChunks_append (bid : String) (chunks : List (Option String))
    (x y : List Message) :
    foldChunks bid chunks (x ++ y) = foldChunks bid chunks x ++ foldChunks bid chunks y := by
  induction chunks generalizing x y with
  | nil => rfl
  | cons c rest ih =>
      unfold foldChunks
      rw [applyChunk_append, ih]

theorem applyDelta_of_ne (bid t : String) (msgs : List Message)
    (h : ∀ m ∈ msgs, m.id ≠ bid) :
    applyDelta bid t msgs = msgs := by
  induction msgs with
  | nil => rfl
  | cons m rest ih =>
      unfold applyDelta at ih ⊢
      rw [List.map_cons]
      rw [if_neg (h m (List.mem_cons_self m rest))]
      rw [ih fun x hx => h x (List.mem_cons_of_mem m hx)]

theorem applyChunk_of_ne (bid : String) (c : Option String) (msgs : List Message)
    (h : ∀ m ∈ msgs, m.id ≠ bid) :
    applyChunk bid c msgs = msgs := by
  cases c with
  | none => rfl
  | some t =>
      unfold applyChunk
      by_cases ht : t = "" <;> simp [ht, applyDelta_of_ne bid t msgs h]

theorem foldChunks_of_ne (bid : String) (chunks : List (Option String))
    (msgs : List Message) (h : ∀ m ∈ msgs, m.id ≠ bid) :
    foldChunks bid chunks msgs = msgs := by
  induction chunks with
  | nil => rfl
  | cons c rest ih =>
      unfold foldChunks
      rw [applyChunk_of_ne bid c msgs h, ih]

theorem mem_applyChunk (bid : String) (c : Option String) (msgs : List Message)
    (m' : Message) (h : m' ∈ applyChunk bid c msgs) :
    ∃ m ∈ msgs, m'.id = m.id ∧ m'.role = m.role ∧ m'.attachment = m.attachment := by
  cases c with
  | none => exact ⟨m', h, rfl, rfl, rfl⟩
  | some t =>
      simp only [applyChunk] at h
      by_cases ht : t = ""
      · rw [if_pos ht] at h
        exact ⟨m', h, rfl, rfl, rfl⟩
      · rw [if_neg ht] at h
        unfold applyDelta at h
        obtain ⟨m, hm, he⟩ := List.mem_map.mp h
        refine ⟨m, hm, ?_⟩
        rw [← he]
        by_cases hid : m.id = bid <;> simp [hid]

theorem mem_foldChunks (bid : String) (chunks : List (Option String))
    (msgs : List Message) (m' : Message) (h : m' ∈ foldChunks bid chunks msgs) :
    ∃ m ∈ msgs, m'.id = m.id ∧ m'.role = m.role ∧ m'.attachment = m.attachment := by
  induction chunks generalizing msgs with
  | nil => exact ⟨m', h, rfl, rfl, rfl⟩
  | cons c rest ih =>
      unfold foldChunks at h
      obtain ⟨m1, hm1, h1, h2, h3⟩ := ih (applyChunk bid c msgs) h
      obtain ⟨m0, hm0, g1, g2, g3⟩ := mem_applyChunk bid c msgs m1 hm1
      exact ⟨m0, hm0, h1.trans g1, h2.trans g2, h3.trans g3⟩

theorem idsOf_applyChunk (bid : String) (c : Option String) (msgs : List Message) :
    idsOf (applyChunk bid c msgs) = idsOf msgs := by
  cases c with
  | none => rfl
  | some t =>
      simp only [applyChunk]
      by_cases ht : t = ""
      · rw [if_pos ht]
      · rw [if_neg ht]
        unfold applyDelta idsOf
        rw [List.map_map]
        apply List.map_congr_left
        intro m _
        by_cases hid : m.id = bid <;> simp [hid]

theorem idsOf_foldChunks (bid : String) (chunks : List (Option String))
    (msgs : List Message) :
    idsOf (foldChunks bid chunks msgs) = idsOf msgs := by
  induction chunks generalizing msgs with
  | nil => rfl
  | cons c rest ih =>
      unfold foldChunks
      rw [ih, idsOf_applyChunk]

theorem idsOf_append (x y : List Message) :
    idsOf (x ++ y) = idsOf x ++ idsOf y := by
  unfold idsOf
  exact List.map_append _ x y

theorem foldChunks_map_some (bid : String) (chunks : List String)
    (msgs : List Message) :
    foldChunks bid (chunks.map some) msgs
      = msgs.map fun m =>
          if m.id = bid then { m with text := m.text ++ concatAll chunks } else m := by
  induction chunks generalizing msgs with
  | nil =>
      simp only [List.map_nil, foldChunks, concatAll]
      have h : (fun m : Message =>
          if m.id = bid then { m with text := m.text ++ "" } else m) = fun m => m := by
        funext m
        rw [str_append_empty]
        split <;> rfl
      rw [h]
      simp
  | cons c cs ih =>
      simp only [List.map_cons, foldChunks, concatAll]
      by_cases hc : c = ""
      · simp only [applyChunk]
        rw [if_pos hc, ih]
        simp only [hc, str_empty_append]
      · simp only [applyChunk]
        rw [if_neg hc, ih]
        unfold applyDelta
        rw [List.map_map]
        apply List.map_congr_left
        intro m _
        by_cases hid : m.id = bid <;> simp [hid, str_append_assoc]

/-! Helper lemmas about the event trace semantics. -/

theorem idsOf_step_sublist (s : AppState) (e : Event) (pre : List String)
    (hsub : List.Sublist (idsOf s.messages) pre) :
    List.Sublist (idsOf (step s e).messages) (pre ++ eventIds e) := by
  cases e with
  | setInput t => exact hsub.trans (List.sublist_append_left pre _)
  | attach a => exact hsub.trans (List.sublist_append_left pre _)
  | removeAttachment => exact hsub.trans (List.sublist_append_left pre _)
  | selectModel n => exact hsub.trans (List.sublist_append_left pre _)
  | newChat =>
      exact (List.nil_sublist _).trans (List.sublist_append_left pre _)
  | send uid bid eid t1 t2 t3 o =>
      by_cases hg : sendGuard s
      · simp only [step, handleSend, if_pos hg]
        exact hsub.trans (List.sublist_append_left pre _)
      · cases o with
        | openFailure =>
            simp only [step, handleSend, if_neg hg, eventIds, idsOf,
              List.map_append, List.map_cons, List.map_nil, userMessage,
              placeholderMessage, errorMessage, List.append_assoc,
              List.cons_append, List.nil_append]
            exact List.Sublist.append hsub (List.Sublist.refl _)
        | streamed chunks err =>
            cases err with
            | true =>
                simp only [step, handleSend, if_neg hg, eventIds, if_true]
                rw [idsOf_append, idsOf_foldChunks, idsOf_append]
                simp only [idsOf, List.map_append, List.map_cons, List.map_nil,
                  userMessage, placeholderMessage, errorMessage,
                  List.append_assoc, List.cons_append, List.nil_append]
                exact List.Sublist.append hsub (List.Sublist.refl _)
            | false =>
                simp only [step, handleSend, if_neg hg, eventIds]
                simp only [Bool.false_eq_true, ite_false]
                rw [idsOf_foldChunks, idsOf_append]
                simp only [idsOf, List.map_append, List.map_cons, List.map_nil,
                  userMessage, placeholderMessage, List.append_assoc,
                  List.cons_append, List.nil_append]
                exact List.Sublist.append hsub
                  (((List.nil_sublist [eid]).cons₂ bid).cons₂ uid)

theorem idsOf_run_aux (rest : List Event) (s : AppState) (pre : List String)
    (hsub : List.Sublist (idsOf s.messages) pre) :
    List.Sublist (idsOf (rest.foldl step s).messages) (pre ++ suppliedIds rest) := by
  induction rest generalizing s pre with
  | nil => simpa [suppliedIds] using hsub
  | cons e rest ih =>
      simp only [List.foldl_cons, suppliedIds]
      rw [← List.append_assoc]
      exact ih (step s e) (pre ++ eventIds e) (idsOf_step_sublist s e pre hsub)

theorem userOk_of_model (m : Message) (h : m.role = Role.model) : userOk m := by
  intro hr
  rw [h] at hr
  exact Role.noConfusion hr

theorem userOk_handleSend (s : AppState) (uid bid eid : String) (t1 t2 t3 : Nat)
    (o : StreamOutcome) (hub : uid ≠ bid)
    (hbid : ∀ m ∈ s.messages, m.id ≠ bid)
    (hinv : ∀ m ∈ s.messages, userOk m) :
    ∀ m ∈ (handleSend s uid bid eid t1 t2 t3 o).1.messages, userOk m := by
  by_cases hg : sendGuard s
  · simp only [handleSend, if_pos hg]
    exact hinv
  · have huser : userOk (userMessage uid (jsTrim s.input) t1 s.attachment) := by
      intro _
      refine ⟨noWsEnds_jsTrimList s.input.data, ?_⟩
      by_cases hi : jsTrim s.input = ""
      · right
        have hno : s.attachment ≠ none := fun hn => hg (Or.inl ⟨hi, hn⟩)
        exact Option.isSome_iff_ne_none.mpr hno
      · left
        exact hi
    have hne : ∀ m ∈ s.messages ++ [userMessage uid (jsTrim s.input) t1 s.attachment],
        m.id ≠ bid := by
      intro m hm
      rcases List.mem_append.mp hm with h1 | h1
      · exact hbid m h1
      · rw [List.mem_singleton.mp h1]
        exact hub
    have hmem : ∀ m ∈ s.messages ++ [userMessage uid (jsTrim s.input) t1 s.attachment],
        userOk m := by
      intro m hm
      rcases List.mem_append.mp hm with h1 | h1
      · exact hinv m h1
      · rw [List.mem_singleton.mp h1]
        exact huser
    have hsplit : ∀ cs : List (Option String), foldChunks bid cs
        (s.messages ++ [userMessage uid (jsTrim s.input) t1 s.attachment,
          placeholderMessage bid t2])
        = (s.messages ++ [userMessage uid (jsTrim s.input) t1 s.attachment])
          ++ foldChunks bid cs [placeholderMessage bid t2] := by
      intro cs
      have he : s.messages ++ [userMessage uid (jsTrim s.input) t1 s.attachment,
            placeholderMessage bid t2]
          = (s.messages ++ [userMessage uid (jsTrim s.input) t1 s.attachment])
            ++ [placeholderMessage bid t2] := by
        simp
      rw [he, foldChunks_append, foldChunks_of_ne bid cs _ hne]
    have hbot : ∀ cs : List (Option String),
        ∀ m ∈ foldChunks bid cs [placeholderMessage bid t2], userOk m := by
      intro cs m hm
      obtain ⟨m0, hm0, _, hrole, _⟩ := mem_foldChunks bid cs _ m hm
      rw [List.mem_singleton.mp hm0] at hrole
      exact userOk_of_model m hrole
    cases o with
    | openFailure =>
        simp only [handleSend, if_neg hg]
        intro m hm
        rcases List.mem_append.mp hm with h1 | h1
        · rcases List.mem_append.mp h1 with h2 | h2
          · exact hinv m h2
          · rcases List.mem_cons.mp h2 with h3 | h3
            · rw [h3]
              exact huser
            · rw [List.mem_singleton.mp h3]
              exact userOk_of_model _ rfl
        · rw [List.mem_singleton.mp h1]
          exact userOk_of_model _ rfl
    | streamed chunks err =>
        cases err with
        | true =>
            simp only [handleSend, if_neg hg, if_true]
            intro m hm
            rcases List.mem_append.mp hm with h1 | h1
            · rw [hsplit chunks] at h1
              rcases List.mem_append.mp h1 with h2 | h2
              · exact hmem m h2
              · exact hbot chunks m h2
            · rw [List.mem_singleton.mp h1]
              exact userOk_of_model _ rfl
        | false =>
            simp only [handleSend, if_neg hg, Bool.false_eq_true, ite_false]
            intro m hm
            rw [hsplit chunks] at hm
            rcases List.mem_append.mp hm with h1 | h1
            · exact hmem m h1
            · exact hbot chunks m h1

theorem userOk_run_aux (rest : List Event) (s : AppState) (pre : List String)
    (hnd : (pre ++ suppliedIds rest).Nodup)
    (hsub : List.Sublist (idsOf s.messages) pre)
    (hinv : ∀ m ∈ s.messages, userOk m) :
    ∀ m ∈ (rest.foldl step s).messages, userOk m := by
  induction rest generalizing s pre with
  | nil => simpa using hinv
  | cons e rest ih =>
      simp only [suppliedIds] at hnd
      have hnd' : ((pre ++ eventIds e) ++ suppliedIds rest).Nodup := by
        rwa [List.append_assoc]
      have hsub' := idsOf_step_sublist s e pre hsub
      have hinv' : ∀ m ∈ (step s e).messages, userOk m := by
        cases e with
        | setInput t => exact hinv
        | attach a => exact hinv
        | removeAttachment => exact hinv
        | selectModel n => exact hinv
        | newChat =>
            intro m hm
            simp [step, startNewChat] at hm
        | send uid bid eid t1 t2 t3 o =>
            have hnodup3 : ([uid, bid, eid] : List String).Nodup :=
              List.Nodup.sublist
                ((List.sublist_append_left [uid, bid, eid] (suppliedIds rest)).trans
                  (List.sublist_append_right pre _)) hnd
            have hub : uid ≠ bid := by
              intro h
              rw [h] at hnodup3
              simp at hnodup3
            have hdisj := List.disjoint_of_nodup_append hnd
            have hbidpre : bid ∉ pre := by
              intro hb
              exact hdisj hb (by simp [eventIds])
            have hbid : ∀ m ∈ s.messages, m.id ≠ bid := by
              intro m hm he
              apply hbidpre
              rw [← he]
              exact hsub.subset (List.mem_map_of_mem Message.id hm)
            exact userOk_handleSend s uid bid eid t1 t2 t3 o hub hbid hinv
      exact ih (step s e) (pre ++ eventIds e) hnd' hsub' hinv'

/-! Claim theorems. -/

/-- C1: if opening the stream fails, or the stream raises an error after
some deltas were applied, `handleSend` appends exactly one new assistant
message whose text is exactly the fixed failure notice; the store up to
that point — including the possibly partially filled placeholder — is left
exactly as it was at the moment of failure, so the store length grows by
exactly one relative to its length at the moment of failure. -/
theorem send_failure_appends_one_notice (s : AppState) (uid bid eid : String)
    (t1 t2 t3 : Nat) (chunks : List (Option String)) (hguard : ¬ sendGuard s) :
    (handleSend s uid bid eid t1 t2 t3 StreamOutcome.openFailure).1.messages
      = storeAtFailure s uid bid t1 t2 [] ++ [errorMessage eid t3] ∧
    (handleSend s uid bid eid t1 t2 t3 (StreamOutcome.streamed chunks true)).1.messages
      = storeAtFailure s uid bid t1 t2 chunks ++ [errorMessage eid t3] ∧
    (handleSend s uid bid eid t1 t2 t3 StreamOutcome.openFailure).1.messages.length
      = (storeAtFailure s uid bid t1 t2 []).length + 1 ∧
    (handleSend s uid bid eid t1 t2 t3 (StreamOutcome.streamed chunks true)).1.messages.length
      = (storeAtFailure s uid bid t1 t2 chunks).length + 1 ∧
    (errorMessage eid t3).role = Role.model ∧
    (errorMessage eid t3).text = errorNoticeText := by
  have h1 : (handleSend s uid bid eid t1 t2 t3 StreamOutcome.openFailure).1.messages
      = storeAtFailure s uid bid t1 t2 [] ++ [errorMessage eid t3] := by
    simp only [handleSend, if_neg hguard, storeAtFailure, foldChunks]
  have h2 : (handleSend s uid bid eid t1 t2 t3
        (StreamOutcome.streamed chunks true)).1.messages
      = storeAtFailure s uid bid t1 t2 chunks ++ [errorMessage eid t3] := by
    simp only [handleSend, if_neg hguard, if_true, storeAtFailure]
  refine ⟨h1, h2, ?_, ?_, rfl, rfl⟩
  · rw [h1]
    simp
  · rw [h2]
    simp

theorem send_failure_appends_one_notice_witness :
    (¬ sendGuard stWithInput) ∧
    (handleSend stWithInput "u" "b" "e" 1 2 3 StreamOutcome.openFailure).1.messages
      = storeAtFailure stWithInput "u" "b" 1 2 [] ++ [errorMessage "e" 3] :=
  ⟨by decide,
   (send_failure_appends_one_notice stWithInput "u" "b" "e" 1 2 3 [some "He"]
     (by decide)).1⟩

/-- C2: for every invocation of send that passes the entry guard, the busy
flag is false after the invocation terminates, whatever the stream outcome
— normal completion, stream-open failure, or mid-stream error. -/
theorem send_always_clears_busy (s : AppState) (uid bid eid : String)
    (t1 t2 t3 : Nat) (outcome : StreamOutcome) (hguard : ¬ sendGuard s) :
    (handleSend s uid bid eid t1 t2 t3 outcome).1.isLoading = false := by
  cases outcome with
  | openFailure => simp [handleSend, if_neg hguard]
  | streamed chunks err =>
      cases err with
      | true => simp [handleSend, if_neg hguard]
      | false => simp [handleSend, if_neg hguard]

theorem send_always_clears_busy_witness :
    (¬ sendGuard stWithInput) ∧
    (handleSend stWithInput "u" "b" "e" 1 2 3
        (StreamOutcome.streamed [some "x"] false)).1.isLoading = false :=
  ⟨by decide,
   send_always_clears_busy stWithInput "u" "b" "e" 1 2 3
     (StreamOutcome.streamed [some "x"] false) (by decide)⟩

/-- C3: folding a list of text fragments into the placeholder one by one
equals appending their concatenation in one fragment; the resulting text
of the placeholder is its previous text followed by the concatenation of
all fragments in arrival order, and in particular feeding the fragments
Hel and lo coincides with feeding Hello in one fragment. -/
theorem stream_accumulation_is_concat (bid : String) (chunks : List String)
    (msgs : List Message) :
    foldChunks bid (chunks.map some) msgs
      = foldChunks bid [some (concatAll chunks)] msgs ∧
    foldChunks bid (chunks.map some) msgs
      = msgs.map (fun m =>
          if m.id = bid then { m with text := m.text ++ concatAll chunks } else m) ∧
    foldChunks bid [some "Hel", some "lo"] msgs
      = foldChunks bid [some "Hello"] msgs := by
  have key : ∀ cs : List String, foldChunks bid (cs.map some) msgs
      = msgs.map (fun m =>
          if m.id = bid then { m with text := m.text ++ concatAll cs } else m) :=
    fun cs => foldChunks_map_some bid cs msgs
  have single : ∀ t : String, foldChunks bid [some t] msgs
      = msgs.map (fun m =>
          if m.id = bid then { m with text := m.text ++ t } else m) := by
    intro t
    have h := key [t]
    simp only [List.map_cons, List.map_nil, concatAll] at h
    rw [h]
    simp only [str_append_empty]
  refine ⟨?_, key chunks, ?_⟩
  · rw [key chunks, single (concatAll chunks)]
  · have hl : foldChunks bid [some "Hel", some "lo"] msgs
        = foldChunks bid ((["Hel", "lo"] : List String).map some) msgs := rfl
    rw [hl, key ["Hel", "lo"], single "Hello"]
    have : concatAll ["Hel", "lo"] = "Hello" := by decide
    rw [this]

/-- C4 counterexample: starting a new conversation does not reset the busy
flag; from a state with the busy flag set, `startNewChat` leaves it set,
contradicting the claim that the flag is false afterwards regardless of
prior state. -/
theorem clear_busy_counterexample :
    (startNewChat stBusy).isLoading = true := rfl

/-- C4 (amended): the new-conversation action empties the conversation
store, clears the input buffer and unsets the pending attachment, for
every prior state; the busy flag (and the selected model) are left
unchanged, not reset. -/
theorem clear_resets_store_input_attachment (s : AppState) :
    (startNewChat s).messages = [] ∧
    (startNewChat s).input = "" ∧
    (startNewChat s).attachment = none ∧
    (startNewChat s).isLoading = s.isLoading ∧
    (startNewChat s).selectedModel = s.selectedModel :=
  ⟨rfl, rfl, rfl, rfl, rfl⟩

/-- C5: while the busy flag is true, or when the trimmed input is empty
and no attachment is staged, send is a no-op: the state is returned
unchanged and no request is issued. -/
theorem send_guard_rejects (s : AppState) (uid bid eid : String)
    (t1 t2 t3 : Nat) (outcome : StreamOutcome) (h : sendGuard s) :
    handleSend s uid bid eid t1 t2 t3 outcome = (s, none) := by
  simp [handleSend, if_pos h]

theorem send_guard_rejects_witness :
    sendGuard stBusy ∧
    handleSend stBusy "u" "b" "e" 1 2 3 (StreamOutcome.streamed [some "x"] false)
      = (stBusy, none) :=
  ⟨by decide,
   send_guard_rejects stBusy "u" "b" "e" 1 2 3
     (StreamOutcome.streamed [some "x"] false) (by decide)⟩

/-- C6: sending with an attachment and empty (trimmed) text appends a user
message whose attachment is set and whose text is the empty string, and
whenever an attachment is present the new-turn content of the outgoing
request places the inline-image part strictly before any text part. The
two freshness hypotheses name what the id oracle supplies: the placeholder
id differs from the user-message id and from every stored id, so the
folded chunks cannot alias the user message. -/
theorem send_attachment_only_shape (s : AppState) (a : Attachment)
    (uid bid eid : String) (t1 t2 t3 : Nat) (chunks : List (Option String))
    (err : Bool) (hatt : s.attachment = some a) (hinput : jsTrim s.input = "")
    (hbusy : s.isLoading = false) (hub : uid ≠ bid)
    (hfresh : bid ∉ idsOf s.messages) :
    (∃ tail, (handleSend s uid bid eid t1 t2 t3
        (StreamOutcome.streamed chunks err)).1.messages
      = s.messages ++ userMessage uid "" t1 (some a) :: tail) ∧
    (∃ req, (handleSend s uid bid eid t1 t2 t3
        (StreamOutcome.streamed chunks err)).2 = some req ∧
      req.content = MessageContent.parts [Part.inlineData a, Part.text ""]) ∧
    (∀ prompt : String, ∀ a0 : Attachment, ∃ ps,
      buildMessageContent prompt (some a0) = MessageContent.parts ps ∧
      ps.head? = some (Part.inlineData a0) ∧ imageBeforeText ps) := by
  have hg : ¬ sendGuard s := by
    intro h
    rcases h with ⟨_, hn⟩ | hb
    · rw [hatt] at hn
      exact Option.noConfusion hn
    · rw [hbusy] at hb
      exact Bool.noConfusion hb
  have hne : ∀ m ∈ s.messages ++ [userMessage uid (jsTrim s.input) t1 s.attachment],
      m.id ≠ bid := by
    intro m hm he
    rcases List.mem_append.mp hm with h1 | h1
    · exact hfresh (he ▸ List.mem_map_of_mem Message.id h1)
    · rw [List.mem_singleton.mp h1] at he
      exact hub he
  have hsplit : foldChunks bid chunks
      (s.messages ++ [userMessage uid (jsTrim s.input) t1 s.attachment,
        placeholderMessage bid t2])
      = (s.messages ++ [userMessage uid (jsTrim s.input) t1 s.attachment])
        ++ foldChunks bid chunks [placeholderMessage bid t2] := by
    have he : s.messages ++ [userMessage uid (jsTrim s.input) t1 s.attachment,
          placeholderMessage bid t2]
        = (s.messages ++ [userMessage uid (jsTrim s.input) t1 s.attachment])
          ++ [placeholderMessage bid t2] := by
      simp
    rw [he, foldChunks_append, foldChunks_of_ne bid chunks _ hne]
  rw [hinput, hatt] at hsplit
  have hibt : ∀ (a0 : Attachment) (p : String),
      imageBeforeText [Part.inlineData a0, Part.text p] := by
    intro a0 p i j h1 h2
    fin_cases i <;> fin_cases j <;> simp_all [Part.isImage]
  refine ⟨?_, ?_, ?_⟩
  · cases err with
    | true =>
        refine ⟨foldChunks bid chunks [placeholderMessage bid t2]
          ++ [errorMessage eid t3], ?_⟩
        simp only [handleSend, if_neg hg, if_true, hinput, hatt]
        rw [hsplit]
        simp [List.append_assoc]
    | false =>
        refine ⟨foldChunks bid chunks [placeholderMessage bid t2], ?_⟩
        simp only [handleSend, if_neg hg, Bool.false_eq_true, ite_false,
          hinput, hatt]
        rw [hsplit]
        simp [List.append_assoc]
  · have hreq : (handleSend s uid bid eid t1 t2 t3
        (StreamOutcome.streamed chunks err)).2
        = some (sendMessageToGeminiStream (jsTrim s.input)
            (buildHistory s.messages) s.selectedModel s.attachment) := by
      cases err with
      | true => simp only [handleSend, if_neg hg, if_true]
      | false => simp only [handleSend, if_neg hg, Bool.false_eq_true, ite_false]
    refine ⟨_, hreq, ?_⟩
    rw [hinput, hatt]
    rfl
  · intro prompt a0
    exact ⟨[Part.inlineData a0, Part.text prompt], rfl, rfl, hibt a0 prompt⟩

theorem send_attachment_only_shape_witness :
    (jsTrim stWithImage.input = "" ∧ stWithImage.isLoading = false ∧
      ("u" : String) ≠ "b" ∧ ("b" : String) ∉ idsOf stWithImage.messages) ∧
    (∃ req, (handleSend stWithImage "u" "b" "e" 1 2 3
        (StreamOutcome.streamed [some "ok"] false)).2 = some req ∧
      req.content = MessageContent.parts [Part.inlineData attPng, Part.text ""]) :=
  ⟨⟨by decide, rfl, by decide, by decide⟩,
   (send_attachment_only_shape stWithImage attPng "u" "b" "e" 1 2 3 [some "ok"]
     false rfl (by decide) rfl (by decide) (by decide)).2.1⟩

/-- C7: the request context built by send is exactly the prior conversation
as it stood before this send (the newly appended user message and the
placeholder are excluded), each message mapped to its role plus a
content-parts list in which an inline-data part comes first exactly when
the message has an attachment, followed by a text part exactly when its
text is non-empty — stated as a refinement of `specHistory`, the spec-side
rendering of that sentence. -/
theorem send_request_context_matches_spec (s : AppState) (uid bid eid : String)
    (t1 t2 t3 : Nat) (outcome : StreamOutcome) (hguard : ¬ sendGuard s) :
    ∃ req, (handleSend s uid bid eid t1 t2 t3 outcome).2 = some req ∧
      req.history = specHistory s.messages := by
  have hparts : ∀ m : Message, messageParts m = specParts m := by
    intro m
    unfold messageParts specParts
    cases m.attachment <;> by_cases h : m.text = "" <;> simp [h]
  have hhist : buildHistory s.messages = specHistory s.messages := by
    unfold buildHistory specHistory historyEntryOf
    apply List.map_congr_left
    intro m _
    rw [hparts m]
  have hreq : (handleSend s uid bid eid t1 t2 t3 outcome).2
      = some (sendMessageToGeminiStream (jsTrim s.input)
          (buildHistory s.messages) s.selectedModel s.attachment) := by
    cases outcome with
    | openFailure => simp only [handleSend, if_neg hguard]
    | streamed chunks err =>
        cases err with
        | true => simp only [handleSend, if_neg hguard, if_true]
        | false => simp only [handleSend, if_neg hguard, Bool.false_eq_true, ite_false]
  refine ⟨_, hreq, ?_⟩
  simp only [sendMessageToGeminiStream, hhist]

theorem send_request_context_matches_spec_witness :
    (¬ sendGuard stWithInput) ∧
    (∃ req, (handleSend stWithInput "u" "b" "e" 1 2 3
        (StreamOutcome.streamed [] false)).2 = some req ∧
      req.history = specHistory stWithInput.messages) :=
  ⟨by decide,
   send_request_context_matches_spec stWithInput "u" "b" "e" 1 2 3
     (StreamOutcome.streamed [] false) (by decide)⟩

/-- C8 counterexample: the id generator is `Math.random`-based and the code
never checks freshness; when the oracle repeats an id inside one send
(user message and placeholder both get the id a), the store ids are not
pairwise distinct, refuting the claim for all sequences of sends. -/
theorem store_ids_distinct_counterexample :
    ¬ (idsOf (run collidingTrace).messages).Nodup := by
  decide

/-- C8 (amended): for every event trace in which the ids supplied by the
id oracle are pairwise distinct, the message ids in the conversation store
are pairwise distinct — each appended message (user message, placeholder,
or failure notice) carries an id different from every id already stored. -/
theorem store_ids_distinct_of_fresh (evs : List Event)
    (h : (suppliedIds evs).Nodup) :
    (idsOf (run evs).messages).Nodup := by
  have hs := idsOf_run_aux evs initState [] (List.nil_sublist [])
  rw [List.nil_append] at hs
  exact List.Nodup.sublist hs h

theorem store_ids_distinct_of_fresh_witness :
    (suppliedIds freshTrace).Nodup ∧ (idsOf (run freshTrace).messages).Nodup :=
  ⟨by decide, store_ids_distinct_of_fresh freshTrace (by decide)⟩

/-- C9 counterexample: with a repeated oracle id, a streamed delta also
appends to the user message that shares the placeholder id, leaving a user
message with trailing whitespace (text differs from the trimmed send-time
input), refuting the invariant as stated for every reachable state. -/
theorem user_messages_trimmed_counterexample :
    ¬ (∀ m ∈ (run collidingWsTrace).messages, m.role = Role.user →
        noWsEnds m.text.data = true ∧ (m.text ≠ "" ∨ m.attachment.isSome = true)) := by
  decide

/-- C9 (amended): in every state reachable by a trace whose supplied ids
are pairwise distinct, every user message has text with no leading or
trailing whitespace (as produced by trimming the send-time input) and is
non-empty or carries an attachment; the invariant is preserved by send,
by every streamed delta, by the failure path and by the new-conversation
action, which the induction behind this theorem steps through. -/
theorem user_messages_trimmed_nonempty (evs : List Event)
    (h : (suppliedIds evs).Nodup) :
    ∀ m ∈ (run evs).messages, m.role = Role.user →
      noWsEnds m.text.data = true ∧ (m.text ≠ "" ∨ m.attachment.isSome = true) := by
  have hinv0 : ∀ m ∈ initState.messages, userOk m := by
    intro m hm
    simp [initState] at hm
  exact userOk_run_aux evs initState [] (by simpa using h)
    (List.nil_sublist []) hinv0

theorem user_messages_trimmed_nonempty_witness :
    (suppliedIds freshTrace).Nodup ∧
    (∀ m ∈ (run freshTrace).messages, m.role = Role.user →
      noWsEnds m.text.data = true ∧ (m.text ≠ "" ∨ m.attachment.isSome = true)) :=
  ⟨by decide, user_messages_trimmed_nonempty freshTrace (by decide)⟩

/-- C10: one streamed delta changes only the text of the message carrying
the placeholder id: every message keeps its id, role, timestamp and
attachment, messages with a different id are untouched, store length and
order are unchanged, the busy flag (and all other component state) is
unchanged, and a delta whose text is absent or empty changes nothing. -/
theorem delta_touches_only_target_text (bid : String) (c : Option String)
    (s : AppState) :
    (applyChunkState bid c s).messages.length = s.messages.length ∧
    (applyChunkState bid c s).input = s.input ∧
    (applyChunkState bid c s).isLoading = s.isLoading ∧
    (applyChunkState bid c s).attachment = s.attachment ∧
    (applyChunkState bid c s).selectedModel = s.selectedModel ∧
    (∀ i : Nat, ∀ h1 : i < s.messages.length,
      ∀ h2 : i < (applyChunkState bid c s).messages.length,
      ((applyChunkState bid c s).messages.get ⟨i, h2⟩).id
          = (s.messages.get ⟨i, h1⟩).id ∧
      ((applyChunkState bid c s).messages.get ⟨i, h2⟩).role
          = (s.messages.get ⟨i, h1⟩).role ∧
      ((applyChunkState bid c s).messages.get ⟨i, h2⟩).timestamp
          = (s.messages.get ⟨i, h1⟩).timestamp ∧
      ((applyChunkState bid c s).messages.get ⟨i, h2⟩).attachment
          = (s.messages.get ⟨i, h1⟩).attachment ∧
      ((s.messages.get ⟨i, h1⟩).id ≠ bid →
        (applyChunkState bid c s).messages.get ⟨i, h2⟩ = s.messages.get ⟨i, h1⟩) ∧
      (∀ t, c = some t → t ≠ "" → (s.messages.get ⟨i, h1⟩).id = bid →
        ((applyChunkState bid c s).messages.get ⟨i, h2⟩).text
          = (s.messages.get ⟨i, h1⟩).text ++ t)) ∧
    ((c = none ∨ c = some "") → applyChunkState bid c s = s) := by
  have hid : (c = none ∨ c = some "") → applyChunkState bid c s = s := by
    intro h
    rcases h with h | h <;> rw [h] <;> rfl
  cases c with
  | none =>
      refine ⟨rfl, rfl, rfl, rfl, rfl, ?_, hid⟩
      intro i h1 h2
      exact ⟨rfl, rfl, rfl, rfl, fun _ => rfl, fun t ht => Option.noConfusion ht⟩
  | some t =>
      by_cases ht : t = ""
      · subst ht
        refine ⟨rfl, rfl, rfl, rfl, rfl, ?_, hid⟩
        intro i h1 h2
        refine ⟨rfl, rfl, rfl, rfl, fun _ => rfl, fun t0 ht0 hne _ => ?_⟩
        exact absurd (Option.some.inj ht0).symm hne
      · have hmsgs : (applyChunkState bid (some t) s).messages
            = applyDelta bid t s.messages := by
          simp only [applyChunkState, applyChunk, if_neg ht]
        have hget : ∀ i (h1 : i < s.messages.length)
            (h2 : i < (applyChunkState bid (some t) s).messages.length),
            (applyChunkState bid (some t) s).messages.get ⟨i, h2⟩
              = if (s.messages.get ⟨i, h1⟩).id = bid
                then { s.messages.get ⟨i, h1⟩ with
                       text := (s.messages.get ⟨i, h1⟩).text ++ t }
                else s.messages.get ⟨i, h1⟩ := by
          intro i h1
          rw [hmsgs]
          intro h2
          simp [applyDelta, List.get_eq_getElem, List.getElem_map]
        have hlen : (applyChunkState bid (some t) s).messages.length
            = s.messages.length := by
          rw [hmsgs]
          simp [applyDelta]
        refine ⟨hlen, rfl, rfl, rfl, rfl, ?_, hid⟩
        intro i h1 h2
        rw [hget i h1 h2]
        by_cases hidm : (s.messages.get ⟨i, h1⟩).id = bid
        · rw [if_pos hidm]
          refine ⟨rfl, rfl, rfl, rfl, fun hne => absurd hidm hne, ?_⟩
          intro t0 ht0 _ _
          injection ht0 with hte
          rw [← hte]
        · rw [if_neg hidm]
          exact ⟨rfl, rfl, rfl, rfl, fun _ => rfl, fun t0 ht0 hne hb => absurd hb hidm⟩

theorem delta_touches_only_target_text_witness :
    applyChunkState "b" none stWithInput = stWithInput :=
  (delta_touches_only_target_text "b" none stWithInput).2.2.2.2.2.2 (Or.inl rfl)

end GenzAI
